import Mathlib

/-!
Shallow embedding of `src/addr.rs` of the `aarch64` crate: canonical
virtual / physical address wrapper types, alignment arithmetic, and the
page-table-index decomposition of a virtual address.

`u64` values are modelled as `Nat`; wrapping arithmetic applies `% 2^64`
explicitly where the Rust code can overflow (release-mode wrapping).
Rust's panicking operations (`checked_sub(..).unwrap()`) are modelled
with `Option`, `None` standing for the panic.
-/

namespace Aarch64

/-- `2^64`, the modulus of `u64` arithmetic. -/
def U64_MOD : Nat := 2 ^ 64

/-- Bitwise complement within 64 bits: Rust `!x` on a `u64`. -/
def u64_not (x : Nat) : Nat := (U64_MOD - 1) ^^^ x

/-- `pub enum VirtAddrRange { BottomRange = 0, TopRange = 1 }` -/
inductive VirtAddrRange : Type where
  | BottomRange : VirtAddrRange
  | TopRange : VirtAddrRange
deriving DecidableEq, Repr

/-- `VirtAddrRange::as_offset` -/
def VirtAddrRange.as_offset : VirtAddrRange → Nat
  | VirtAddrRange.BottomRange => 0
  | VirtAddrRange.TopRange => 0xFFFF000000000000

/-- `pub struct VirtAddr(u64);` -/
structure VirtAddr : Type where
  val : Nat
deriving DecidableEq, Repr

/-- `pub struct PhysAddr(u64);` -/
structure PhysAddr : Type where
  val : Nat
deriving DecidableEq, Repr

/-- `pub struct VirtAddrNotValid(u64);` -/
structure VirtAddrNotValid : Type where
  val : Nat
deriving DecidableEq, Repr

/-- `pub struct PhysAddrNotValid(u64);` -/
structure PhysAddrNotValid : Type where
  val : Nat
deriving DecidableEq, Repr

/-- `align_down(addr, align)`: `addr & !(align - 1)`. -/
def align_down (addr align : Nat) : Nat := addr &&& u64_not (align - 1)

/-- `align_up(addr, align)`: `addr` when already aligned, otherwise
`(addr | (align - 1)) + 1`, wrapping as a `u64`. -/
def align_up (addr align : Nat) : Nat :=
  if addr &&& (align - 1) = 0 then addr
  else ((addr ||| (align - 1)) + 1) % U64_MOD

/-- Shared alignment test: `align_down(addr, align) == addr`
(`VirtAddr::is_aligned` / `PhysAddr::is_aligned` on the raw value). -/
def is_aligned (addr align : Nat) : Bool := align_down addr align == addr

/-- Rust `u64::checked_sub`. -/
def checked_sub (a b : Nat) : Option Nat := if b ≤ a then some (a - b) else none

namespace VirtAddr

/-- `VirtAddr::new`: stores the raw value; the `try_new` call is commented out. -/
def new (addr : Nat) : VirtAddr := ⟨addr⟩

/-- `VirtAddr::try_new`: matches on `addr.get_bits(48..64)`. -/
def try_new (addr : Nat) : Except VirtAddrNotValid VirtAddr :=
  if (addr >>> 48) &&& 0xffff = 0 then Except.ok ⟨addr⟩
  else if (addr >>> 48) &&& 0xffff = 0xffff then Except.ok ⟨addr⟩
  else Except.error ⟨(addr >>> 48) &&& 0xffff⟩

/-- `VirtAddr::new_unchecked`. -/
def new_unchecked (addr : Nat) : VirtAddr := ⟨addr⟩

/-- `VirtAddr::zero`. -/
def zero : VirtAddr := ⟨0⟩

/-- `VirtAddr::as_u64`. -/
def as_u64 (v : VirtAddr) : Nat := v.val

/-- `VirtAddr::align_up`. -/
def align_up (v : VirtAddr) (align : Nat) : VirtAddr :=
  ⟨Aarch64.align_up v.val align⟩

/-- `VirtAddr::align_down`. -/
def align_down (v : VirtAddr) (align : Nat) : VirtAddr :=
  ⟨Aarch64.align_down v.val align⟩

/-- `VirtAddr::is_aligned`: `self.align_down(align) == self`. -/
def is_aligned (v : VirtAddr) (align : Nat) : Bool := v.align_down align == v

/-- `VirtAddr::page_offset`: `self.0 & 0xfff` (a `u12`, modelled as `Nat`). -/
def page_offset (v : VirtAddr) : Nat := v.val &&& 0xfff

/-- `VirtAddr::va_range_bits`: `((self.0 >> 48) & 0xffff) as u16`. -/
def va_range_bits (v : VirtAddr) : Nat := (v.val >>> 48) &&& 0xffff

/-- `VirtAddr::va_range`: matches on `va_range_bits`; the error payload is
`self.0`, the full raw address. -/
def va_range (v : VirtAddr) : Except VirtAddrNotValid VirtAddrRange :=
  if v.va_range_bits = 0x0000 then Except.ok VirtAddrRange.BottomRange
  else if v.va_range_bits = 0xffff then Except.ok VirtAddrRange.TopRange
  else Except.error ⟨v.val⟩

/-- `VirtAddr::p1_index`: `(self.0 >> 12) & 0o777` (a `u9`, modelled as `Nat`). -/
def p1_index (v : VirtAddr) : Nat := (v.val >>> 12) &&& 0o777

/-- `VirtAddr::p2_index`: `(self.0 >> 12 >> 9) & 0o777`. -/
def p2_index (v : VirtAddr) : Nat := (v.val >>> 12 >>> 9) &&& 0o777

/-- `VirtAddr::p3_index`: `(self.0 >> 12 >> 9 >> 9) & 0o777`. -/
def p3_index (v : VirtAddr) : Nat := (v.val >>> 12 >>> 9 >>> 9) &&& 0o777

/-- `VirtAddr::p4_index`: `(self.0 >> 12 >> 9 >> 9 >> 9) & 0o777`. -/
def p4_index (v : VirtAddr) : Nat := (v.val >>> 12 >>> 9 >>> 9 >>> 9) &&& 0o777

/-- `impl Add<u64> for VirtAddr`: `VirtAddr::new(self.0 + rhs)` (wrapping). -/
def add (v : VirtAddr) (rhs : Nat) : VirtAddr := new ((v.val + rhs) % U64_MOD)

/-- `impl Sub<u64> for VirtAddr`:
`VirtAddr::new(self.0.checked_sub(rhs).unwrap())`; `none` is the panic. -/
def sub (v : VirtAddr) (rhs : Nat) : Option VirtAddr :=
  (checked_sub v.val rhs).map new

/-- `impl Sub<VirtAddr> for VirtAddr`:
`self.as_u64().checked_sub(rhs.as_u64()).unwrap()`; `none` is the panic. -/
def sub_addr (v rhs : VirtAddr) : Option Nat :=
  checked_sub v.as_u64 rhs.as_u64

end VirtAddr

namespace PhysAddr

/-- `PhysAddr::new`: stores the raw value; the `try_new` call is commented out. -/
def new (addr : Nat) : PhysAddr := ⟨addr⟩

/-- `PhysAddr::try_new`: matches on `addr.get_bits(52..64)`. -/
def try_new (addr : Nat) : Except PhysAddrNotValid PhysAddr :=
  if (addr >>> 52) &&& 0xfff = 0 then Except.ok ⟨addr⟩
  else Except.error ⟨(addr >>> 52) &&& 0xfff⟩

/-- `PhysAddr::as_u64`. -/
def as_u64 (p : PhysAddr) : Nat := p.val

/-- `PhysAddr::is_null`. -/
def is_null (p : PhysAddr) : Bool := p.val == 0

/-- `PhysAddr::align_up`. -/
def align_up (p : PhysAddr) (align : Nat) : PhysAddr :=
  ⟨Aarch64.align_up p.val align⟩

/-- `PhysAddr::align_down`. -/
def align_down (p : PhysAddr) (align : Nat) : PhysAddr :=
  ⟨Aarch64.align_down p.val align⟩

/-- `PhysAddr::is_aligned`: `self.align_down(align) == self`. -/
def is_aligned (p : PhysAddr) (align : Nat) : Bool := p.align_down align == p

/-- `impl Add<u64> for PhysAddr`: `PhysAddr::new(self.0 + rhs)` (wrapping). -/
def add (p : PhysAddr) (rhs : Nat) : PhysAddr := new ((p.val + rhs) % U64_MOD)

/-- `impl Sub<u64> for PhysAddr`:
`PhysAddr::new(self.0.checked_sub(rhs).unwrap())`; `none` is the panic. -/
def sub (p : PhysAddr) (rhs : Nat) : Option PhysAddr :=
  (checked_sub p.val rhs).map new

/-- `impl Sub<PhysAddr> for PhysAddr`:
`self.as_u64().checked_sub(rhs.as_u64()).unwrap()`; `none` is the panic. -/
def sub_addr (p rhs : PhysAddr) : Option Nat :=
  checked_sub p.as_u64 rhs.as_u64

end PhysAddr

/-! ## Helper lemmas -/

/-- A value below `2^64` keeps its top-16 field unchanged by the `& 0xffff`
mask applied in `va_range_bits` / `try_new`. -/
theorem shift48_and_ffff (raw : Nat) (h : raw < 2 ^ 64) :
    (raw >>> 48) &&& 0xffff = raw >>> 48 := by
  have e48 : (2 : Nat) ^ 48 = 281474976710656 := by norm_num
  have e64 : (2 : Nat) ^ 64 = 18446744073709551616 := by norm_num
  have hlt : raw >>> 48 < 2 ^ 16 := by
    rw [Nat.shiftRight_eq_div_pow]
    have e16 : (2 : Nat) ^ 16 = 65536 := by norm_num
    rw [e48, e16]
    omega
  have hmask : (0xffff : Nat) = 2 ^ 16 - 1 := by norm_num
  rw [hmask, Nat.and_pow_two_sub_one_eq_mod, Nat.mod_eq_of_lt hlt]

/-- A value below `2^64` keeps its top-12 field unchanged by the `& 0xfff`
mask applied in `PhysAddr.try_new`. -/
theorem shift52_and_fff (raw : Nat) (h : raw < 2 ^ 64) :
    (raw >>> 52) &&& 0xfff = raw >>> 52 := by
  have e52 : (2 : Nat) ^ 52 = 4503599627370496 := by norm_num
  have e64 : (2 : Nat) ^ 64 = 18446744073709551616 := by norm_num
  have hlt : raw >>> 52 < 2 ^ 12 := by
    rw [Nat.shiftRight_eq_div_pow]
    have e12 : (2 : Nat) ^ 12 = 4096 := by norm_num
    rw [e52, e12]
    omega
  have hmask : (0xfff : Nat) = 2 ^ 12 - 1 := by norm_num
  rw [hmask, Nat.and_pow_two_sub_one_eq_mod, Nat.mod_eq_of_lt hlt]

/-- Bits of `(x >>> k) <<< k`: bit `i` survives iff `k ≤ i`. -/
theorem testBit_floor (x k i : Nat) :
    ((x >>> k) <<< k).testBit i = (decide (k ≤ i) && x.testBit i) := by
  rw [Nat.testBit_shiftLeft]
  by_cases h : k ≤ i
  · simp [h, Nat.testBit_shiftRight, Nat.add_sub_cancel' h]
  · simp [h]

/-- `(x >>> k) <<< k` is the floor of `x` to a multiple of `2^k`. -/
theorem shiftRL_eq_div_mul (x k : Nat) :
    (x >>> k) <<< k = x / 2 ^ k * 2 ^ k := by
  rw [Nat.shiftRight_eq_div_pow, Nat.shiftLeft_eq]

/-- Oring in a low mask: `x | (2^k - 1)` fills the low `k` bits. -/
theorem lor_low_mask (x k : Nat) :
    x ||| (2 ^ k - 1) = x / 2 ^ k * 2 ^ k + (2 ^ k - 1) := by
  have step : x ||| (2 ^ k - 1) = ((x >>> k) <<< k) ||| (2 ^ k - 1) := by
    apply Nat.eq_of_testBit_eq
    intro i
    rw [Nat.testBit_or, Nat.testBit_or, testBit_floor,
      Nat.testBit_two_pow_sub_one]
    rcases Nat.lt_or_ge i k with h | h
    · simp [h]
    · simp [Nat.not_lt.mpr h, h]
  rw [step, shiftRL_eq_div_mul, Nat.mul_comm (x / 2 ^ k) (2 ^ k)]
  exact (Nat.mul_add_lt_is_or (Nat.sub_lt (by positivity) (by norm_num))
    (x / 2 ^ k)).symm

/-- Anding with the 64-bit complement of a low mask floors `x` to a
multiple of `2^k` (for `x` in `u64` range). -/
theorem land_notmask (x k : Nat) (hx : x < 2 ^ 64) :
    x &&& u64_not (2 ^ k - 1) = x / 2 ^ k * 2 ^ k := by
  rw [← shiftRL_eq_div_mul]
  apply Nat.eq_of_testBit_eq
  intro i
  rw [Nat.testBit_and, u64_not, U64_MOD, Nat.testBit_xor,
    Nat.testBit_two_pow_sub_one, Nat.testBit_two_pow_sub_one, testBit_floor]
  rcases Nat.lt_or_ge i 64 with h64 | h64
  · rcases Nat.lt_or_ge i k with hik | hik
    · simp [h64, hik, Nat.not_le.mpr hik]
    · simp [h64, Nat.not_lt.mpr hik, hik, Bool.and_comm]
  · have hxi : x.testBit i = false :=
      Nat.testBit_lt_two_pow
        (lt_of_lt_of_le hx (Nat.pow_le_pow_right (by norm_num) h64))
    simp [hxi]

/-- `align_down` on a power-of-two alignment is flooring division. -/
theorem align_down_eq (addr k : Nat) (ha : addr < 2 ^ 64) :
    align_down addr (2 ^ k) = addr / 2 ^ k * 2 ^ k := by
  unfold align_down
  exact land_notmask addr k ha

/-- `align_up` on a power-of-two alignment in arithmetic form. -/
theorem align_up_eq (addr k : Nat) :
    align_up addr (2 ^ k) =
      if addr % 2 ^ k = 0 then addr
      else (addr / 2 ^ k * 2 ^ k + 2 ^ k) % 2 ^ 64 := by
  unfold align_up
  rw [Nat.and_pow_two_sub_one_eq_mod]
  by_cases h : addr % 2 ^ k = 0
  · rw [if_pos h, if_pos h]
  · rw [if_neg h, if_neg h, lor_low_mask]
    show (addr / 2 ^ k * 2 ^ k + (2 ^ k - 1) + 1) % U64_MOD = _
    rw [U64_MOD]
    congr 1
    have h1 : (1 : Nat) ≤ 2 ^ k := Nat.one_le_two_pow
    omega

/-! ## Claims -/

/-- C2: `VirtAddr::new` and `PhysAddr::new` store the raw value without any
validation and never fail; `VirtAddr::new` is pointwise equal to
`VirtAddr::new_unchecked`. -/
theorem new_bypasses_validation (n : Nat) :
    VirtAddr.new n = VirtAddr.new_unchecked n ∧
    (VirtAddr.new n).as_u64 = n ∧ (PhysAddr.new n).as_u64 = n :=
  ⟨rfl, rfl, rfl⟩

/-- C1 counterexample: at raw `0x0001000000000000` the top-16 field is `1`
but `va_range` fails with payload `0x0001000000000000` (the full raw
address), not `1`: the claimed payload and the actual payload differ. -/
theorem va_range_payload_counterexample :
    (VirtAddr.new 0x0001000000000000).va_range =
        Except.error ⟨0x0001000000000000⟩ ∧
    (VirtAddr.new 0x0001000000000000).va_range_bits = 0x0001 ∧
    (VirtAddr.new 0x0001000000000000).va_range ≠
      Except.error ⟨(VirtAddr.new 0x0001000000000000).va_range_bits⟩ := by
  refine ⟨rfl, rfl, ?_⟩
  intro h
  have hpayload : (0x0001000000000000 : Nat) = 0x0001 :=
    congrArg
      (fun e => match e with
        | Except.error (VirtAddrNotValid.mk x) => x
        | _ => 0) h
  omega

/-- C1 (amended): for every `VirtAddr` whose top-16 field is neither
all-zero nor all-one, `va_range` fails with `VirtAddrNotValid` carrying the
full raw address value `self.0`, not the 16-bit top field. -/
theorem va_range_error_payload (v : VirtAddr)
    (h0 : v.va_range_bits ≠ 0x0000) (hf : v.va_range_bits ≠ 0xffff) :
    v.va_range = Except.error ⟨v.as_u64⟩ := by
  unfold VirtAddr.va_range
  rw [if_neg h0, if_neg hf]
  rfl

/-- Witness for C1's amended theorem at raw `0x0001000000000000`. -/
theorem va_range_error_payload_witness :
    (VirtAddr.new 0x0001000000000000).va_range =
        Except.error ⟨0x0001000000000000⟩ :=
  va_range_error_payload (VirtAddr.new 0x0001000000000000)
    (by decide) (by decide)

/-- C5: address-minus-address on both `VirtAddr` and `PhysAddr` returns the
exact unsigned distance when the right operand is ≤ the left, and panics
(`none`) on underflow rather than wrapping. -/
theorem sub_addr_exact (a b : VirtAddr) (p q : PhysAddr) :
    (b.as_u64 ≤ a.as_u64 → a.sub_addr b = some (a.as_u64 - b.as_u64)) ∧
    (a.as_u64 < b.as_u64 → a.sub_addr b = none) ∧
    (q.as_u64 ≤ p.as_u64 → p.sub_addr q = some (p.as_u64 - q.as_u64)) ∧
    (p.as_u64 < q.as_u64 → p.sub_addr q = none) := by
  unfold VirtAddr.sub_addr PhysAddr.sub_addr checked_sub
  exact ⟨fun h => by rw [if_pos h], fun h => by rw [if_neg (by omega)],
         fun h => by rw [if_pos h], fun h => by rw [if_neg (by omega)]⟩

/-- Witness for C5 at concrete addresses. -/
theorem sub_addr_exact_witness :
    (VirtAddr.new 5).sub_addr (VirtAddr.new 3) = some 2 ∧
    (VirtAddr.new 3).sub_addr (VirtAddr.new 5) = none ∧
    (PhysAddr.new 10).sub_addr (PhysAddr.new 4) = some 6 ∧
    (PhysAddr.new 4).sub_addr (PhysAddr.new 10) = none :=
  ⟨(sub_addr_exact (VirtAddr.new 5) (VirtAddr.new 3)
      (PhysAddr.new 10) (PhysAddr.new 4)).1 (by decide),
   (sub_addr_exact (VirtAddr.new 3) (VirtAddr.new 5)
      (PhysAddr.new 10) (PhysAddr.new 4)).2.1 (by decide),
   (sub_addr_exact (VirtAddr.new 5) (VirtAddr.new 3)
      (PhysAddr.new 10) (PhysAddr.new 4)).2.2.1 (by decide),
   (sub_addr_exact (VirtAddr.new 5) (VirtAddr.new 3)
      (PhysAddr.new 4) (PhysAddr.new 10)).2.2.2 (by decide)⟩

/-- C9: subtracting an integer offset from a `VirtAddr` or `PhysAddr` uses
checked subtraction: exact difference when the offset is ≤ the raw value,
panic (`none`) when it exceeds it. -/
theorem sub_offset_checked (v : VirtAddr) (p : PhysAddr) (n m : Nat) :
    (n ≤ v.val → v.sub n = some (VirtAddr.new (v.val - n))) ∧
    (v.val < n → v.sub n = none) ∧
    (m ≤ p.val → p.sub m = some (PhysAddr.new (p.val - m))) ∧
    (p.val < m → p.sub m = none) := by
  unfold VirtAddr.sub PhysAddr.sub checked_sub
  exact ⟨fun h => by rw [if_pos h]; rfl, fun h => by rw [if_neg (by omega)]; rfl,
         fun h => by rw [if_pos h]; rfl, fun h => by rw [if_neg (by omega)]; rfl⟩

/-- Witness for C9 at concrete inputs. -/
theorem sub_offset_checked_witness :
    (VirtAddr.new 100).sub 40 = some (VirtAddr.new 60) ∧
    (VirtAddr.new 100).sub 101 = none ∧
    (PhysAddr.new 7).sub 7 = some (PhysAddr.new 0) ∧
    (PhysAddr.new 7).sub 8 = none :=
  ⟨(sub_offset_checked (VirtAddr.new 100) (PhysAddr.new 7) 40 7).1 (by decide),
   (sub_offset_checked (VirtAddr.new 100) (PhysAddr.new 7) 101 7).2.1 (by decide),
   (sub_offset_checked (VirtAddr.new 100) (PhysAddr.new 7) 40 7).2.2.1 (by decide),
   (sub_offset_checked (VirtAddr.new 100) (PhysAddr.new 7) 40 8).2.2.2 (by decide)⟩

/-- C6: `VirtAddr::try_new raw` succeeds with a `VirtAddr` wrapping `raw`
iff bits 48..64 of `raw` are all-zero or all-one; on failure the error
carries the offending 16-bit top field. -/
theorem try_new_canonical (raw : Nat) (h : raw < 2 ^ 64) :
    (VirtAddr.try_new raw = Except.ok (VirtAddr.new raw) ↔
        raw >>> 48 = 0 ∨ raw >>> 48 = 0xffff) ∧
    (raw >>> 48 ≠ 0 → raw >>> 48 ≠ 0xffff →
        VirtAddr.try_new raw = Except.error ⟨raw >>> 48⟩) := by
  unfold VirtAddr.try_new
  rw [shift48_and_ffff raw h]
  constructor
  · constructor
    · intro hok
      by_cases h0 : raw >>> 48 = 0
      · exact Or.inl h0
      by_cases hff : raw >>> 48 = 0xffff
      · exact Or.inr hff
      · rw [if_neg h0, if_neg hff] at hok
        exact absurd hok (by simp)
    · rintro (h0 | hff)
      · rw [if_pos h0]; rfl
      · by_cases h0 : raw >>> 48 = 0
        · rw [if_pos h0]; rfl
        · rw [if_neg h0, if_pos hff]; rfl
  · intro h0 hff
    rw [if_neg h0, if_neg hff]

/-- Witness for C6: top-16 field `0x1234` fails with payload `0x1234`, and
a bottom-range address succeeds. -/
theorem try_new_canonical_witness :
    VirtAddr.try_new 0x1234000000000000 = Except.error ⟨0x1234⟩ ∧
    VirtAddr.try_new 0x00007fffffffffff =
        Except.ok (VirtAddr.new 0x00007fffffffffff) :=
  ⟨(try_new_canonical 0x1234000000000000 (by norm_num)).2
      (by decide) (by decide),
   (try_new_canonical 0x00007fffffffffff (by norm_num)).1.mpr
      (Or.inl (by decide))⟩

/-- C7: `PhysAddr::try_new raw` succeeds iff bits 52..64 of `raw` are all
zero; on failure the error carries the nonzero high-bit field. -/
theorem phys_try_new_valid (raw : Nat) (h : raw < 2 ^ 64) :
    (PhysAddr.try_new raw = Except.ok (PhysAddr.new raw) ↔ raw >>> 52 = 0) ∧
    (raw >>> 52 ≠ 0 → PhysAddr.try_new raw = Except.error ⟨raw >>> 52⟩) := by
  unfold PhysAddr.try_new
  rw [shift52_and_fff raw h]
  constructor
  · constructor
    · intro hok
      by_cases h0 : raw >>> 52 = 0
      · exact h0
      · rw [if_neg h0] at hok
        exact absurd hok (by simp)
    · intro h0
      rw [if_pos h0]; rfl
  · intro h0
    rw [if_neg h0]

/-- Witness for C7: `0x000fffffffffffff` succeeds, `0x0010000000000000`
fails with payload `1`. -/
theorem phys_try_new_valid_witness :
    PhysAddr.try_new 0x000fffffffffffff =
        Except.ok (PhysAddr.new 0x000fffffffffffff) ∧
    PhysAddr.try_new 0x0010000000000000 = Except.error ⟨1⟩ :=
  ⟨(phys_try_new_valid 0x000fffffffffffff (by norm_num)).1.mpr (by decide),
   (phys_try_new_valid 0x0010000000000000 (by norm_num)).2 (by decide)⟩

/-- C10: `PhysAddr` operations do not re-validate the 52-bit invariant:
the valid address `0x000ffffffffff001` aligned up to `0x1000` yields,
without error, an address with bit 52 set (out of physical range), and
adding `1` to the valid address `0x000fffffffffffff` does the same. -/
theorem phys_ops_skip_validation :
    PhysAddr.try_new ((PhysAddr.new 0x000ffffffffff001).as_u64) =
        Except.ok (PhysAddr.new 0x000ffffffffff001) ∧
    (PhysAddr.new 0x000ffffffffff001).align_up 0x1000 =
        PhysAddr.new 0x0010000000000000 ∧
    Nat.testBit ((PhysAddr.new 0x000ffffffffff001).align_up 0x1000).as_u64
        52 = true ∧
    PhysAddr.try_new
        (((PhysAddr.new 0x000ffffffffff001).align_up 0x1000).as_u64) =
        Except.error ⟨1⟩ ∧
    ((PhysAddr.new 0x000fffffffffffff).add 1).as_u64 = 0x0010000000000000 := by
  refine ⟨rfl, rfl, rfl, rfl, rfl⟩

/-- C8: for every `u64` address and power-of-two alignment, `align_down`
returns the greatest multiple of the alignment that is ≤ the address, and
the result always satisfies `is_aligned`. -/
theorem align_down_greatest (addr k : Nat) (_hk : k ≤ 63) (ha : addr < 2 ^ 64) :
    2 ^ k ∣ align_down addr (2 ^ k) ∧
    align_down addr (2 ^ k) ≤ addr ∧
    (∀ m, 2 ^ k ∣ m → m ≤ addr → m ≤ align_down addr (2 ^ k)) ∧
    is_aligned (align_down addr (2 ^ k)) (2 ^ k) = true := by
  have hpos : 0 < 2 ^ k := by positivity
  rw [align_down_eq addr k ha]
  refine ⟨Dvd.intro_left _ rfl, Nat.div_mul_le_self addr (2 ^ k), ?_, ?_⟩
  · intro m hm hle
    obtain ⟨t, rfl⟩ := hm
    have ht : t ≤ addr / 2 ^ k := by
      rw [Nat.le_div_iff_mul_le hpos]
      calc t * 2 ^ k = 2 ^ k * t := Nat.mul_comm _ _
        _ ≤ addr := hle
    calc 2 ^ k * t = t * 2 ^ k := Nat.mul_comm _ _
      _ ≤ addr / 2 ^ k * 2 ^ k := Nat.mul_le_mul_right _ ht
  · unfold is_aligned
    have hlt : addr / 2 ^ k * 2 ^ k < 2 ^ 64 :=
      lt_of_le_of_lt (Nat.div_mul_le_self addr (2 ^ k)) ha
    rw [align_down_eq _ k hlt, Nat.mul_div_cancel _ hpos]
    exact beq_self_eq_true _

/-- Witness for C8 at `addr = 1234`, `align = 2`. -/
theorem align_down_greatest_witness :
    2 ^ 1 ∣ align_down 1234 (2 ^ 1) ∧ align_down 1234 (2 ^ 1) ≤ 1234 ∧
    is_aligned (align_down 1234 (2 ^ 1)) (2 ^ 1) = true :=
  ⟨(align_down_greatest 1234 1 (by norm_num) (by norm_num)).1,
   (align_down_greatest 1234 1 (by norm_num) (by norm_num)).2.1,
   (align_down_greatest 1234 1 (by norm_num) (by norm_num)).2.2.2⟩

/-- C4: for every `u64` address and power-of-two alignment, when some
multiple of the alignment ≥ the address exists in `u64` range, `align_up`
returns the smallest such multiple; and for an unaligned address within
`align - 1` of the maximum `u64`, `align_up` wraps to `0`. -/
theorem align_up_smallest (addr k : Nat) (hk : k ≤ 63) (ha : addr < 2 ^ 64) :
    ((∃ m, m < 2 ^ 64 ∧ addr ≤ m ∧ 2 ^ k ∣ m) →
      2 ^ k ∣ align_up addr (2 ^ k) ∧ addr ≤ align_up addr (2 ^ k) ∧
      ∀ m, 2 ^ k ∣ m → addr ≤ m → align_up addr (2 ^ k) ≤ m) ∧
    ((2 ^ 64 - 2 ^ k ≤ addr ∧ ¬ 2 ^ k ∣ addr) → align_up addr (2 ^ k) = 0) := by
  have hpos : 0 < 2 ^ k := by positivity
  rw [align_up_eq addr k]
  by_cases hmod : addr % 2 ^ k = 0
  · rw [if_pos hmod]
    exact ⟨fun _ => ⟨Nat.dvd_of_mod_eq_zero hmod, le_refl addr,
        fun m _ hm => hm⟩,
      fun hb => absurd (Nat.dvd_of_mod_eq_zero hmod) hb.2⟩
  · rw [if_neg hmod]
    -- below any multiple of 2^k that is ≥ addr lies the rounded-up value
    have key : ∀ m, 2 ^ k ∣ m → addr ≤ m →
        addr / 2 ^ k * 2 ^ k + 2 ^ k ≤ m := by
      intro m hm hle
      obtain ⟨t, rfl⟩ := hm
      have hq : addr / 2 ^ k < t := by
        by_contra hcon
        have ht : t ≤ addr / 2 ^ k := Nat.not_lt.mp hcon
        have h1 : 2 ^ k * t ≤ 2 ^ k * (addr / 2 ^ k) :=
          Nat.mul_le_mul_left _ ht
        have h2 : 2 ^ k * (addr / 2 ^ k) + addr % 2 ^ k = addr :=
          Nat.div_add_mod addr (2 ^ k)
        omega
      calc addr / 2 ^ k * 2 ^ k + 2 ^ k
          = 2 ^ k * (addr / 2 ^ k + 1) := by ring
        _ ≤ 2 ^ k * t := Nat.mul_le_mul_left _ hq
    constructor
    · rintro ⟨m, hm64, hmge, hmdvd⟩
      have hR : addr / 2 ^ k * 2 ^ k + 2 ^ k ≤ m := key m hmdvd hmge
      have hRlt : addr / 2 ^ k * 2 ^ k + 2 ^ k < 2 ^ 64 :=
        lt_of_le_of_lt hR hm64
      rw [Nat.mod_eq_of_lt hRlt]
      refine ⟨⟨addr / 2 ^ k + 1, by ring⟩, ?_, key⟩
      have h2 : 2 ^ k * (addr / 2 ^ k) + addr % 2 ^ k = addr :=
        Nat.div_add_mod addr (2 ^ k)
      have h3 : addr % 2 ^ k < 2 ^ k := Nat.mod_lt addr hpos
      have h4 : 2 ^ k * (addr / 2 ^ k) = addr / 2 ^ k * 2 ^ k :=
        Nat.mul_comm _ _
      omega
    · rintro ⟨hnear, -⟩
      -- the quotient is forced: addr / 2^k = 2^(64-k) - 1
      have hsplit : (2 : Nat) ^ k * 2 ^ (64 - k) = 2 ^ 64 := by
        rw [← pow_add]
        congr 1
        omega
      have hepos : 0 < 2 ^ (64 - k) := by positivity
      have hub : addr / 2 ^ k < 2 ^ (64 - k) := by
        rw [Nat.div_lt_iff_lt_mul hpos]
        calc addr < 2 ^ 64 := ha
          _ = 2 ^ (64 - k) * 2 ^ k := by rw [Nat.mul_comm]; exact hsplit.symm
      have hlb : 2 ^ (64 - k) - 1 ≤ addr / 2 ^ k := by
        rw [Nat.le_div_iff_mul_le hpos]
        have : (2 ^ (64 - k) - 1) * 2 ^ k = 2 ^ 64 - 2 ^ k := by
          rw [Nat.sub_mul, one_mul, Nat.mul_comm, hsplit]
        omega
      have hq : addr / 2 ^ k = 2 ^ (64 - k) - 1 := by omega
      have : addr / 2 ^ k * 2 ^ k + 2 ^ k = 2 ^ 64 := by
        rw [hq, Nat.sub_mul, one_mul, Nat.mul_comm, hsplit]
        have h2k : (2 : Nat) ^ k ≤ 2 ^ 64 := Nat.pow_le_pow_right (by norm_num) (by omega)
        omega
      rw [this, Nat.mod_self]

/-- Witness for C4: `align_up 1233 2 = 1234` is the smallest even value
≥ 1233, and `align_up` wraps the odd maximum `2^64 - 1` to `0`. -/
theorem align_up_smallest_witness :
    2 ^ 1 ∣ align_up 1233 (2 ^ 1) ∧ 1233 ≤ align_up 1233 (2 ^ 1) ∧
    align_up (2 ^ 64 - 1) (2 ^ 1) = 0 :=
  ⟨((align_up_smallest 1233 1 (by norm_num) (by norm_num)).1
      ⟨1234, by norm_num, by norm_num, ⟨617, by norm_num⟩⟩).1,
   ((align_up_smallest 1233 1 (by norm_num) (by norm_num)).1
      ⟨1234, by norm_num, by norm_num, ⟨617, by norm_num⟩⟩).2.1,
   (align_up_smallest (2 ^ 64 - 1) 1 (by norm_num) (by norm_num)).2
      ⟨by norm_num, by decide⟩⟩

/-- C3: for every canonical `VirtAddr`, the range offset plus the four
level indices shifted into place plus the page offset reproduces the raw
address exactly. -/
theorem reconstruction (v : VirtAddr) (r : VirtAddrRange)
    (h64 : v.as_u64 < 2 ^ 64) (hr : v.va_range = Except.ok r) :
    r.as_offset + (v.p4_index <<< 39) + (v.p3_index <<< 30) +
      (v.p2_index <<< 21) + (v.p1_index <<< 12) + v.page_offset =
      v.as_u64 := by
  have hbits : (v.va_range_bits = 0 ∧ r = VirtAddrRange.BottomRange) ∨
      (v.va_range_bits = 0xffff ∧ r = VirtAddrRange.TopRange) := by
    unfold VirtAddr.va_range at hr
    by_cases h0 : v.va_range_bits = 0
    · rw [if_pos h0] at hr
      exact Or.inl ⟨h0, by injection hr with h; exact h.symm⟩
    · rw [if_neg h0] at hr
      by_cases hf : v.va_range_bits = 0xffff
      · rw [if_pos hf] at hr
        exact Or.inr ⟨hf, by injection hr with h; exact h.symm⟩
      · rw [if_neg hf] at hr
        exact absurd hr (by simp)
  have e9 : (2 : Nat) ^ 9 = 512 := by norm_num
  have e12 : (2 : Nat) ^ 12 = 4096 := by norm_num
  have e16 : (2 : Nat) ^ 16 = 65536 := by norm_num
  have e48 : (2 : Nat) ^ 48 = 281474976710656 := by norm_num
  have e64 : (2 : Nat) ^ 64 = 18446744073709551616 := by norm_num
  have hb : v.va_range_bits = v.val / 281474976710656 % 65536 := by
    unfold VirtAddr.va_range_bits
    rw [(by norm_num : (0xffff : Nat) = 2 ^ 16 - 1),
      Nat.and_pow_two_sub_one_eq_mod, Nat.shiftRight_eq_div_pow, e48, e16]
  have hpo : v.page_offset = v.val % 4096 := by
    unfold VirtAddr.page_offset
    rw [(by norm_num : (0xfff : Nat) = 2 ^ 12 - 1),
      Nat.and_pow_two_sub_one_eq_mod, e12]
  have h777 : (0o777 : Nat) = 2 ^ 9 - 1 := by norm_num
  have hp1 : v.p1_index = v.val / 4096 % 512 := by
    unfold VirtAddr.p1_index
    rw [h777, Nat.and_pow_two_sub_one_eq_mod, Nat.shiftRight_eq_div_pow,
      e12, e9]
  have hp2 : v.p2_index = v.val / 4096 / 512 % 512 := by
    unfold VirtAddr.p2_index
    rw [h777, Nat.and_pow_two_sub_one_eq_mod, Nat.shiftRight_eq_div_pow,
      Nat.shiftRight_eq_div_pow, e12, (by norm_num : (2 : Nat) ^ 9 = 512)]
  have hp3 : v.p3_index = v.val / 4096 / 512 / 512 % 512 := by
    unfold VirtAddr.p3_index
    rw [h777, Nat.and_pow_two_sub_one_eq_mod, Nat.shiftRight_eq_div_pow,
      Nat.shiftRight_eq_div_pow, Nat.shiftRight_eq_div_pow, e12,
      (by norm_num : (2 : Nat) ^ 9 = 512)]
  have hp4 : v.p4_index = v.val / 4096 / 512 / 512 / 512 % 512 := by
    unfold VirtAddr.p4_index
    rw [h777, Nat.and_pow_two_sub_one_eq_mod, Nat.shiftRight_eq_div_pow,
      Nat.shiftRight_eq_div_pow, Nat.shiftRight_eq_div_pow,
      Nat.shiftRight_eq_div_pow, e12, (by norm_num : (2 : Nat) ^ 9 = 512)]
  have hval : v.as_u64 = v.val := rfl
  rw [hval] at h64 ⊢
  rw [e64] at h64
  rcases hbits with ⟨hz, rfl⟩ | ⟨hf, rfl⟩
  · rw [hb] at hz
    show 0 + _ + _ + _ + _ + _ = _
    rw [hp4, hp3, hp2, hp1, hpo, Nat.shiftLeft_eq, Nat.shiftLeft_eq,
      Nat.shiftLeft_eq, Nat.shiftLeft_eq,
      (by norm_num : (2 : Nat) ^ 39 = 549755813888),
      (by norm_num : (2 : Nat) ^ 30 = 1073741824),
      (by norm_num : (2 : Nat) ^ 21 = 2097152),
      (by norm_num : (2 : Nat) ^ 12 = 4096)]
    omega
  · rw [hb] at hf
    show 0xFFFF000000000000 + _ + _ + _ + _ + _ = _
    rw [hp4, hp3, hp2, hp1, hpo, Nat.shiftLeft_eq, Nat.shiftLeft_eq,
      Nat.shiftLeft_eq, Nat.shiftLeft_eq,
      (by norm_num : (2 : Nat) ^ 39 = 549755813888),
      (by norm_num : (2 : Nat) ^ 30 = 1073741824),
      (by norm_num : (2 : Nat) ^ 21 = 2097152),
      (by norm_num : (2 : Nat) ^ 12 = 4096)]
    omega

/-- Witness for C3 at a bottom-range and a top-range address. -/
theorem reconstruction_witness :
    VirtAddrRange.BottomRange.as_offset +
      ((VirtAddr.new 0x0000123456789abc).p4_index <<< 39) +
      ((VirtAddr.new 0x0000123456789abc).p3_index <<< 30) +
      ((VirtAddr.new 0x0000123456789abc).p2_index <<< 21) +
      ((VirtAddr.new 0x0000123456789abc).p1_index <<< 12) +
      (VirtAddr.new 0x0000123456789abc).page_offset =
      (VirtAddr.new 0x0000123456789abc).as_u64 ∧
    VirtAddrRange.TopRange.as_offset +
      ((VirtAddr.new 0xffff8000deadbeef).p4_index <<< 39) +
      ((VirtAddr.new 0xffff8000deadbeef).p3_index <<< 30) +
      ((VirtAddr.new 0xffff8000deadbeef).p2_index <<< 21) +
      ((VirtAddr.new 0xffff8000deadbeef).p1_index <<< 12) +
      (VirtAddr.new 0xffff8000deadbeef).page_offset =
      (VirtAddr.new 0xffff8000deadbeef).as_u64 :=
  ⟨reconstruction (VirtAddr.new 0x0000123456789abc) VirtAddrRange.BottomRange
      (by decide) rfl,
   reconstruction (VirtAddr.new 0xffff8000deadbeef) VirtAddrRange.TopRange
      (by decide) rfl⟩

end Aarch64
